import Mathlib

/-!
Verification development for the TG-FileStreamBot streaming gateway.

The Go sources are embedded shallowly:
  * machine integers (`int`, `int32`, `int64`) become `Int`; the worker score
    is computed in `float64` in Go, which is exact for the magnitudes below
    `2^53` that all statements here are concerned with, so integer arithmetic
    is a faithful model;
  * the worker pool slice `Workers.Bots` becomes `List Worker`, and the Go
    pointer to the selected worker is represented by its index in the slice;
  * maps guarded by mutexes (session store, metadata cache) become association
    lists with explicit state passing;
  * fallible Go functions returning `(T, error)` become `Except`/`Option`.
-/

namespace FSB

/-! ## Worker pool (bot/workers.go)

`WorkerMetrics` keeps the atomic counters of one worker.  The Go struct also
stores `StartTime`, `LastRequestTime` and the last-5-latency ring, which no
claim below inspects; the counters are carried exactly.
-/

structure WorkerMetrics where
  activeRequests : Int
  totalRequests : Int
  failedRequests : Int
  totalResponseTime : Int
  deriving Repr, DecidableEq, Inhabited

structure Worker where
  id : Int
  metrics : WorkerMetrics
  deriving Repr, DecidableEq, Inhabited

/-- Go `Worker.StartRequest`: increments the active and total request counters. -/
def startRequest (w : Worker) : Worker :=
  { w with metrics := { w.metrics with
      activeRequests := w.metrics.activeRequests + 1
      totalRequests := w.metrics.totalRequests + 1 } }

/-- Go `Worker.EndRequest`: decrements the active counter, accumulates the
elapsed duration, and counts a failure when `failed` is set. -/
def endRequest (w : Worker) (durationMs : Int) (failed : Bool) : Worker :=
  { w with metrics := { w.metrics with
      activeRequests := w.metrics.activeRequests - 1
      totalResponseTime := w.metrics.totalResponseTime + durationMs
      failedRequests := w.metrics.failedRequests + (if failed then 1 else 0) } }

/-- The load-balancer score from `GetNextWorker`:
`score = activeRequests * 10000 + totalRequests`. -/
def score (w : Worker) : Int :=
  w.metrics.activeRequests * 10000 + w.metrics.totalRequests

/-- The selection scan of `GetNextWorker`: walks the worker slice keeping the
current minimum score (initialised to the sentinel `999999999`) and the index
of the current best worker (`none` models Go's `nil` pointer, which the
function would dereference in its debug log: no worker is produced then). -/
def selectAux : List Worker → Int → Option Nat → Nat → Option Nat
  | [], _, best, _ => best
  | w :: ws, minScore, best, i =>
    if score w < minScore then selectAux ws (score w) (some i) (i + 1)
    else selectAux ws minScore best (i + 1)

/-- Index-returning form of `GetNextWorker` over the pool slice. -/
def getNextWorkerIdx (bots : List Worker) : Option Nat :=
  selectAux bots 999999999 none 0

/-- Go `GetNextWorker`: returns the worker at the selected index (Go returns the
pointer into `Workers.Bots`; `none` models the empty pool and the
all-scores-at-or-above-sentinel case). -/
def getNextWorker (bots : List Worker) : Option Worker :=
  (getNextWorkerIdx bots).map (fun i => bots.getD i default)

/-- The selection scan of `GetNextWorkerExcluding`: identical to the
`GetNextWorker` scan except that workers whose id is listed in `excludeIDs`
are skipped. -/
def selectExAux (excludeIDs : List Int) : List Worker → Int → Option Worker → Option Worker
  | [], _, best => best
  | w :: ws, minScore, best =>
    if excludeIDs.contains w.id then selectExAux excludeIDs ws minScore best
    else if score w < minScore then selectExAux excludeIDs ws (score w) (some w)
    else selectExAux excludeIDs ws minScore best

/-- Go `GetNextWorkerExcluding`: the same scan restricted to non-excluded
workers; returns `none` (Go `nil`) when every worker is excluded. -/
def getNextWorkerExcluding (bots : List Worker) (excludeIDs : List Int) : Option Worker :=
  selectExAux excludeIDs bots 999999999 none

/-- Applies `StartRequest` to the worker at index `i` of the pool slice (Go
mutates the worker through the selected pointer). -/
def startAt (pool : List Worker) (i : Nat) : List Worker :=
  pool.set i (startRequest (pool.getD i default))

/-- Repeated selection followed by `StartRequest` on the winner, with no
`EndRequest`: records the sequence of selected indices. -/
def simulate : Nat → List Worker → List Nat
  | 0, _ => []
  | Nat.succ n, pool =>
    match getNextWorkerIdx pool with
    | some i => i :: simulate n (startAt pool i)
    | none => []

/-- A worker in the rotation scenario of the load-balancer spec: no active
request, `total_requests = c`. -/
def freshWorker (i : Nat) (c : Int) : Worker :=
  ⟨i, ⟨0, c, 0, 0⟩⟩

/-- The same worker after one `StartRequest`. -/
def startedWorker (i : Nat) (c : Int) : Worker :=
  ⟨i, ⟨1, c + 1, 0, 0⟩⟩

/-- Pool of `N` workers with equal starting totals `c`, of which the first
`k` have been selected and started exactly once. -/
def stateNk (N : Nat) (c : Int) (k : Nat) : List Worker :=
  (List.range N).map (fun i => if i < k then startedWorker i c else freshWorker i c)

/-! ## Request log (routes/direct.go, `AddRequestLog` / `GetRequestLogs`) -/

structure RequestLog where
  timestampMs : Int
  messageID : Int
  workerID : Int
  workerName : String
  clientIP : String
  rangeStart : Int
  rangeEnd : Int
  chunkSize : Int
  bytesSent : Int
  fileSize : Int
  statusCode : Int
  durationMs : Int
  userAgent : String
  referer : String
  deriving Repr, DecidableEq, Inhabited

/-- Go `AddRequestLog`: when the buffer already holds 300 (or more) entries the
oldest entry is dropped (`requestLogs[1:]`), then the new entry is appended. -/
def addRequestLog (logs : List RequestLog) (entry : RequestLog) : List RequestLog :=
  let trimmed := if logs.length ≥ 300 then logs.drop 1 else logs
  trimmed ++ [entry]

/-- Go `GetRequestLogs`: returns the contents of the buffer (the Go code copies
the slice into a fresh array, which is value semantics here). -/
def getRequestLogs (logs : List RequestLog) : List RequestLog :=
  logs

/-! ## Session store (streamauth, `sessionStore`)

The store is a mutex-guarded `map[string]Session`; it becomes an association
list keyed by the token.  `crypto/rand` token generation is modelled by
passing the generated token explicitly; times are unix milliseconds as `Int`
with `time.After` being strict `<`.
-/

structure Session where
  userID : String
  email : String
  createdAt : Int
  expiresAt : Int
  deriving Repr, DecidableEq, Inhabited

abbrev SessionMap := List (String × Session)

/-- Map update with replacement, modelling Go `s.sessions[token] = session`. -/
def sessionInsert (m : SessionMap) (token : String) (s : Session) : SessionMap :=
  (token, s) :: m.filter (fun kv => kv.fst ≠ token)

/-- Map lookup, modelling Go `session, ok := s.sessions[token]`. -/
def sessionFind (m : SessionMap) (token : String) : Option Session :=
  (m.find? (fun kv => kv.fst = token)).map Prod.snd

/-- Map deletion, modelling Go `delete(s.sessions, token)`. -/
def sessionErase (m : SessionMap) (token : String) : SessionMap :=
  m.filter (fun kv => kv.fst ≠ token)

/-- Go `sessionStore.Create`: stores
`{userID, email, createdAt = now, expiresAt = now + ttl}` under the freshly
generated token and returns the token with its expiry. -/
def sessionCreate (m : SessionMap) (token : String) (userID email : String)
    (now ttl : Int) : SessionMap × String × Int :=
  (sessionInsert m token ⟨userID, email, now, now + ttl⟩, token, now + ttl)

/-- Go `sessionStore.Validate`: `(zero, false)` for the empty token, an unknown
token, or an expired token; expiry lazily deletes the entry.  The possibly
updated store is returned alongside the result. -/
def sessionValidate (m : SessionMap) (token : String) (now : Int) :
    SessionMap × Option Session :=
  if token = "" then (m, none)
  else
    match sessionFind m token with
    | none => (m, none)
    | some session =>
      if session.expiresAt < now then (sessionErase m token, none)
      else (m, some session)

/-! ## Firebase identity verifier (streamauth/firebase.go)

Only the payload-validation step of `VerifyToken` is embedded: the base64
decoding and the RSA-PKCS#1 v1.5 signature check are cryptographic
primitives outside the shallow embedding, and the claims below quantify over
tokens whose signature already verifies.  A decoded payload carries the JSON
claims; `none` models an absent claim, and `stringClaim` rejects empty
strings exactly as the Go helper does.
-/

structure FirebasePayload where
  exp : Option Int
  iat : Option Int
  aud : Option String
  iss : Option String
  sub : Option String
  email : Option String
  emailVerified : Option Bool
  deriving Repr, DecidableEq, Inhabited

structure FirebaseClaims where
  subject : String
  email : String
  emailVerified : Bool
  deriving Repr, DecidableEq, Inhabited

/-- Go `int64Claim`: fails with a "missing claim" error when absent.  (The Go
numeric-coercion branches all yield the same integer for the well-typed
payloads modelled here.) -/
def int64Claim (v : Option Int) (key : String) : Except String Int :=
  match v with
  | none => .error ("missing claim: " ++ key)
  | some n => .ok n

/-- Go `stringClaim`: fails when the claim is absent or the empty string. -/
def stringClaim (v : Option String) (key : String) : Except String String :=
  match v with
  | none => .error ("missing claim: " ++ key)
  | some s => if s = "" then .error ("invalid claim: " ++ key) else .ok s

/-- The payload-validation tail of `firebaseVerifier.VerifyToken`
(firebase.go, after the signature has verified), in source order:
expiry, forward-dated `iat` (5-minute skew), audience, issuer, subject
length 1..128, then the optional claims. -/
def verifyPayload (p : FirebasePayload) (now : Int) (projectID : String) :
    Except String FirebaseClaims :=
  match int64Claim p.exp "exp" with
  | .error e => .error e
  | .ok exp =>
    match int64Claim p.iat "iat" with
    | .error e => .error e
    | .ok iat =>
      if now > exp then .error "token expired"
      else if iat > now + 300 then .error "token issued in the future"
      else
        match stringClaim p.aud "aud" with
        | .error e => .error e
        | .ok aud =>
          if aud ≠ projectID then .error "invalid audience"
          else
            match stringClaim p.iss "iss" with
            | .error e => .error e
            | .ok iss =>
              if iss ≠ "https://securetoken.google.com/" ++ projectID then .error "invalid issuer"
              else
                match stringClaim p.sub "sub" with
                | .error e => .error e
                | .ok sub =>
                  if sub.length = 0 ∨ sub.length > 128 then .error "invalid subject"
                  else .ok ⟨sub, p.email.getD "", p.emailVerified.getD false⟩

/-! ## Metadata cache (internal/cache) and direct-stream fetch helpers
(internal/utils/helpers.go)

The freecache-backed store becomes an association list from string keys to
the cached descriptor together with the TTL it was stored with.  The gob
round-trip is value-preserving, so entries hold the descriptor itself.
-/

structure TGFile where
  fileSize : Int
  fileName : String
  mimeType : String
  objectID : Int
  locatorReference : Int
  deriving Repr, DecidableEq, Inhabited

abbrev MetaCache := List (String × (TGFile × Int))

def cacheFind (c : MetaCache) (key : String) : Option (TGFile × Int) :=
  (c.find? (fun kv => kv.fst = key)).map Prod.snd

/-- Go `Cache.Set`: stores the encoded descriptor under the key with the given
TTL in seconds (freecache overwrites any existing entry). -/
def cacheSet (c : MetaCache) (key : String) (f : TGFile) (ttlSeconds : Int) : MetaCache :=
  (key, (f, ttlSeconds)) :: c.filter (fun kv => kv.fst ≠ key)

/-- Go `Cache.Delete`: removes the entry for the key. -/
def cacheDelete (c : MetaCache) (key : String) : MetaCache :=
  c.filter (fun kv => kv.fst ≠ key)

/-- Upstream failures distinguished by the direct route's string matching. -/
inductive FetchErr where
  | notFoundInChannel
  | deletedOrInaccessible
  | transient
  | allWorkersExhausted
  | retriesExceeded
  deriving Repr, DecidableEq, Inhabited

/-- The cache key of `FileFromMessageAndChannel`:
`direct:<channel_id>:<message_id>:<worker_account_id>`. -/
def directCacheKey (channelID messageID selfID : Int) : String :=
  "direct:" ++ toString channelID ++ ":" ++ toString messageID ++ ":" ++ toString selfID

/-- Go `FileFromMessageAndChannel`: consult the cache under the direct key; on a
miss, fetch from Telegram (the upstream result is passed explicitly) and
cache a successful descriptor with TTL 240 seconds. -/
def fileFromMessageAndChannel (c : MetaCache) (channelID messageID selfID : Int)
    (upstream : Except FetchErr TGFile) : MetaCache × Except FetchErr TGFile :=
  let key := directCacheKey channelID messageID selfID
  match cacheFind c key with
  | some (f, _) => (c, .ok f)
  | none =>
    match upstream with
    | .ok f => (cacheSet c key f 240, .ok f)
    | .error e => (c, .error e)

/-- Go `RefetchFileFromMessageAndChannel`: deletes the direct cache key, then
fetches fresh metadata through `FileFromMessageAndChannel` (which re-caches
the result). -/
def refetchFileFromMessageAndChannel (c : MetaCache) (channelID messageID selfID : Int)
    (upstream : Except FetchErr TGFile) : MetaCache × Except FetchErr TGFile :=
  fileFromMessageAndChannel
    (cacheDelete c (directCacheKey channelID messageID selfID))
    channelID messageID selfID upstream

/-! ## Legacy HMAC validation (internal/utils, `ValidateHMACSignature`) -/

/-- Digit run to its numeric value (base 10). -/
def digitsVal (l : List Char) : Nat :=
  l.foldl (fun acc c => acc * 10 + (c.toNat - 48)) 0

/-- Go `strconv.Atoi` / `strconv.ParseInt(s, 10, 64)`: optional sign, a
non-empty run of decimal digits, 64-bit range check; anything else errors. -/
def goAtoi (s : String) : Option Int :=
  match s.data with
  | [] => none
  | c :: rest =>
    let signedDigits : Bool × List Char :=
      if c = '-' then (true, rest)
      else if c = '+' then (false, rest)
      else (false, c :: rest)
    let neg := signedDigits.fst
    let ds := signedDigits.snd
    if ds.isEmpty then none
    else if ds.all Char.isDigit then
      let v : Int := digitsVal ds
      let n : Int := if neg then -v else v
      if n < -(2 ^ 63) ∨ n > 2 ^ 63 - 1 then none else some n
    else none

/-- Go `ValidateHMACSignature` (utils/hmac.go): `none` means valid.  The
HMAC-SHA256 primitive itself is a cryptographic function passed in as
`computeHMAC`; `hmac.Equal` on hex strings is string equality. -/
def validateHMACSignature (computeHMAC : String → String → String)
    (secret : String) (messageID : Int) (signature expiration : String)
    (now : Int) : Option String :=
  if secret = "" then none
  else if signature = "" ∨ expiration = "" then some "missing signature or expiration"
  else
    match goAtoi expiration with
    | none => some "invalid expiration timestamp"
    | some exp =>
      if now > exp then some "signature expired"
      else
        let data := toString messageID ++ ":" ++ toString exp
        if signature ≠ computeHMAC secret data then some "invalid signature"
        else none

/-! ## Direct stream route, request-validation phase (routes/direct.go 233-306)

Everything the handler does before any worker is selected and before any
upstream (Telegram) call: the media-channel configuration check, message-id
parsing, and the optional legacy HMAC check.  The handler reads no session
token and never consults the stream-auth session store; its only inputs are
the ones below.
-/

inductive EarlyOutcome where
  | serverError500
  | badRequest400
  | unauthorized401
  | proceed (messageID : Int)
  deriving Repr, DecidableEq, Inhabited

/-- The request-validation phase of `getDirectStreamRoute`, in source order:
500 when `MEDIA_CHANNEL_ID` is unset, 400 when the path parameter does not
parse with `strconv.Atoi`, 401 when `STREAM_SECRET` is configured and the
legacy HMAC check fails; otherwise the request proceeds to worker selection
and the upstream fetch. -/
def directEarlyPhase (computeHMAC : String → String → String)
    (mediaChannelID : Int) (streamSecret : String)
    (messageIDParam sigParam expParam : String) (now : Int) : EarlyOutcome :=
  if mediaChannelID = 0 then .serverError500
  else
    match goAtoi messageIDParam with
    | none => .badRequest400
    | some messageID =>
      if streamSecret ≠ "" then
        match validateHMACSignature computeHMAC streamSecret messageID sigParam expParam now with
        | some _ => .unauthorized401
        | none => .proceed messageID
      else .proceed messageID

/-! ## Direct stream route, response-header phase (routes/direct.go 432-483)

The branch serving files with `FileSize > 0`.  The `Range` header is parsed
by the vendored third-party `range-parser` library, outside this repository;
its outcome is therefore an input: `none` models an absent header,
`some .fail` a parse error, `some (.ok s e)` a successful parse whose first
range is `[s, e]`.  gin defers the actual header write until the first body
write, so headers set after `WriteHeader` still take effect; the phase is
modelled as the final header/status record. -/

inductive RangeParse where
  | ok (start finish : Int)
  | fail
  deriving Repr, DecidableEq, Inhabited

structure ServeHeaders where
  status : Nat
  acceptRanges : Bool
  contentRange : Option (Int × Int × Int)
  rangeStart : Int
  rangeEnd : Int
  contentLength : Int
  contentType : String
  disposition : String
  fileNameHeader : String
  deriving Repr, DecidableEq, Inhabited

inductive ServeResult where
  | badRange
  | headers (h : ServeHeaders)
  deriving Repr, DecidableEq, Inhabited

/-- The header/status computation of the ranged branch: absent `Range` gives
200 over `[0, size-1]`; a parsed range gives 206 with
`Content-Range: bytes s-e/size`; a parse failure gives the 400 response.
`Content-Length = end - start + 1`, the content type defaults to
`application/octet-stream`, and `?d=true` switches the disposition from
`inline` to `attachment`. -/
def directServeHeaders (file : TGFile) (rangeHeader : Option RangeParse)
    (dParam : String) : ServeResult :=
  match rangeHeader with
  | some .fail => .badRange
  | none => mkHeaders 200 none 0 (file.fileSize - 1)
  | some (.ok s e) => mkHeaders 206 (some (s, e, file.fileSize)) s e
where
  mkHeaders (status : Nat) (cr : Option (Int × Int × Int)) (s e : Int) : ServeResult :=
    .headers
      { status := status
        acceptRanges := true
        contentRange := cr
        rangeStart := s
        rangeEnd := e
        contentLength := e - s + 1
        contentType := if file.mimeType = "" then "application/octet-stream" else file.mimeType
        disposition := if dParam = "true" then "attachment" else "inline"
        fileNameHeader := file.fileName }

/-! ## Direct stream route, worker accounting (routes/direct.go 348-364)

After the descriptor race resolves, the winner gets `StartRequest` exactly
once, and a single `defer` closure runs `EndRequest` on the same worker on
every return path of the remainder of the handler.  `ServeExit` enumerates
those return paths; `serveBodyPoolOps` records the pool-counter operations
the body performs between `StartRequest` and the deferred `EndRequest` on
each path (none of the return sites touches the counters). -/

inductive PoolOp where
  | opStart
  | opEnd (failed : Bool)
  deriving Repr, DecidableEq, Inhabited

inductive ServeExit where
  | photoFetchFailed500
  | photoRefetchFailed500
  | photoRetryFailed500
  | photoUnexpectedType500
  | photoServed200
  | rangeParseFailed400
  | headServed
  | readerCreateFailed
  | copyCompleted
  | clientDisconnected
  | refetchFailed500
  | retryReaderCreateFailed
  | retryCopyFailed
  | retryCopyCompleted
  | copyFailedOther
  deriving Repr, DecidableEq, Inhabited

/-- Counter operations performed by the handler body on each return path
between `StartRequest` and the deferred `EndRequest` (direct.go 366-563):
no path starts or ends a pool request. -/
def serveBodyPoolOps : ServeExit → List PoolOp
  | .photoFetchFailed500 => []
  | .photoRefetchFailed500 => []
  | .photoRetryFailed500 => []
  | .photoUnexpectedType500 => []
  | .photoServed200 => []
  | .rangeParseFailed400 => []
  | .headServed => []
  | .readerCreateFailed => []
  | .copyCompleted => []
  | .clientDisconnected => []
  | .refetchFailed500 => []
  | .retryReaderCreateFailed => []
  | .retryCopyFailed => []
  | .retryCopyCompleted => []
  | .copyFailedOther => []

/-- The full per-request counter trace on the winning worker:
`StartRequest`, the body of the serve phase, then the deferred
`EndRequest(requestStartTime, status >= 400)`. -/
def directRequestPoolOps (exit : ServeExit) (failed : Bool) : List PoolOp :=
  PoolOp.opStart :: (serveBodyPoolOps exit ++ [PoolOp.opEnd failed])

/-- Applies a trace of counter operations to a worker. -/
def applyPoolOps (w : Worker) (durationMs : Int) : List PoolOp → Worker
  | [] => w
  | .opStart :: ops => applyPoolOps (startRequest w) durationMs ops
  | .opEnd failed :: ops => applyPoolOps (endRequest w durationMs failed) durationMs ops

/-- Counts the `EndRequest` calls in a trace. -/
def endCount (ops : List PoolOp) : Nat :=
  ops.countP (fun op => match op with | .opEnd _ => true | _ => false)

/-! ## Direct stream route, worker selection and fetch chain
(routes/direct.go 82-158 and 275-346)

`FileFromMessageAndChannel` runs against the network, so per-worker fetch
outcomes are an oracle `fetchOf` from worker id to result.  The two-worker
descriptor race (`fetchFileWithRace` with two goroutines) is concurrent and
its winner depends on the scheduler; its outcome for pools of two or more
racers is an explicit `raceOracle` input, while the zero- and one-worker
paths are the deterministic code paths of the source. -/

/-- The hard, non-retryable errors the route recognises by string comparison
("message not found in channel" / "message was deleted or is not
accessible"). -/
def isHardErr : FetchErr → Bool
  | .notFoundInChannel => true
  | .deletedOrInaccessible => true
  | _ => false

/-- The fallback loop of `fetchFileWithRetry` (up to `maxRetries = 3` more
workers, each chosen by `GetNextWorkerExcluding` over the grown exclusion
list). -/
def fetchRetryLoop (pool : List Worker) (fetchOf : Int → Except FetchErr TGFile) :
    Nat → List Int → Except FetchErr (TGFile × Worker)
  | 0, _ => .error .retriesExceeded
  | Nat.succ n, excl =>
    match getNextWorkerExcluding pool excl with
    | none => .error .allWorkersExhausted
    | some fw =>
      match fetchOf fw.id with
      | .ok f => .ok (f, fw)
      | .error e =>
        if isHardErr e then .error e
        else fetchRetryLoop pool fetchOf n (excl ++ [fw.id])

/-- Go `fetchFileWithRetry`: one attempt on the given worker, hard errors stop
immediately, otherwise up to 3 fallback workers are tried. -/
def fetchFileWithRetry (pool : List Worker) (fetchOf : Int → Except FetchErr TGFile)
    (worker : Worker) (exclude : List Int) : Except FetchErr (TGFile × Worker) :=
  let excludeWorkers := exclude ++ [worker.id]
  match fetchOf worker.id with
  | .ok f => .ok (f, worker)
  | .error e =>
    if isHardErr e then .error e
    else fetchRetryLoop pool fetchOf 3 excludeWorkers

/-- Go `fetchFileWithRace`: no workers is an error, a single worker falls back
to the retry logic, and two racing workers resolve through the scheduler
oracle. -/
def fetchFileWithRace (pool : List Worker) (fetchOf : Int → Except FetchErr TGFile)
    (workers : List Worker) (raceOracle : Except FetchErr (TGFile × Worker)) :
    Except FetchErr (TGFile × Worker) :=
  match workers with
  | [] => .error .transient
  | [w] => fetchFileWithRetry pool fetchOf w []
  | _ => raceOracle

inductive FetchPhase where
  | respond (status : Nat)
  | stream (f : TGFile) (w : Worker)
  deriving Repr, DecidableEq, Inhabited

/-- The worker-selection and fetch phase of `getDirectStreamRoute`
(direct.go 275-346): primary selection (503 when `nil`), optional secondary,
the race, one more fallback retry, then the 404/502 classification; a
success proceeds to `StartRequest` and streaming on the winning worker. -/
def handlerFetchPhase (pool : List Worker) (fetchOf : Int → Except FetchErr TGFile)
    (raceOracle : Except FetchErr (TGFile × Worker)) : FetchPhase :=
  match getNextWorker pool with
  | none => .respond 503
  | some primary =>
    let seen := [primary.id]
    let secondary := getNextWorkerExcluding pool seen
    let workerPool :=
      match secondary with
      | some s => [primary, s]
      | none => [primary]
    let seen2 :=
      match secondary with
      | some s => seen ++ [s.id]
      | none => seen
    let raceRes := fetchFileWithRace pool fetchOf workerPool raceOracle
    let finalRes : Except FetchErr (TGFile × Worker) :=
      match raceRes with
      | .ok r => .ok r
      | .error e =>
        match getNextWorkerExcluding pool seen2 with
        | some fb => fetchFileWithRetry pool fetchOf fb (seen2 ++ [fb.id])
        | none => .error e
    match finalRes with
    | .error e => if isHardErr e then .respond 404 else .respond 502
    | .ok (f, w) => .stream f w

/-! ## Theorems -/

/-- C10: the global request log is a bounded FIFO: `AddRequestLog` appends,
evicting the oldest entry first once the buffer holds 300 entries, and
`GetRequestLogs` hands back the buffer contents (a fresh copy in Go). -/
theorem requestLog_bounded_fifo (logs : List RequestLog) (entry : RequestLog)
    (h : logs.length ≤ 300) :
    (addRequestLog logs entry).length ≤ 300 ∧
    (logs.length < 300 → addRequestLog logs entry = logs ++ [entry]) ∧
    (logs.length = 300 → addRequestLog logs entry = logs.tail ++ [entry]) ∧
    getRequestLogs (addRequestLog logs entry) = addRequestLog logs entry := by
  refine ⟨?_, ?_, ?_, rfl⟩
  · by_cases hl : logs.length ≥ 300 <;>
      simp [addRequestLog, hl, List.length_drop] <;> omega
  · intro hl
    simp [addRequestLog, show ¬ logs.length ≥ 300 by omega]
  · intro hl
    simp [addRequestLog, show logs.length ≥ 300 by omega, List.drop_one]

/-- C10 witness: the bounded-FIFO contract evaluated on an empty buffer. -/
theorem requestLog_bounded_fifo_witness :
    ([] : List RequestLog).length ≤ 300 ∧
    ((addRequestLog [] default).length ≤ 300 ∧
     (([] : List RequestLog).length < 300 → addRequestLog [] default = [] ++ [default]) ∧
     (([] : List RequestLog).length = 300 → addRequestLog [] default = [].tail ++ [default]) ∧
     getRequestLogs (addRequestLog [] default) = addRequestLog [] default) :=
  ⟨by simp, requestLog_bounded_fifo [] default (by simp)⟩

/-- C2: for files with positive size, the ranged branch answers 200 over
`[0, size-1]` without a `Range` header and 206 with
`Content-Range: bytes s-e/size` for a parsed range `[s,e]`; both responses
carry `Accept-Ranges: bytes`, `Content-Length = end-start+1`, a content type
defaulting to `application/octet-stream`, and a disposition that is
`attachment` exactly when `?d=true` and `inline` otherwise. -/
theorem directServe_range_semantics (file : TGFile) (rp : Option RangeParse)
    (d : String) (hsize : 0 < file.fileSize) :
    (rp = none → ∃ h, directServeHeaders file rp d = .headers h ∧
        h.status = 200 ∧ h.rangeStart = 0 ∧ h.rangeEnd = file.fileSize - 1 ∧
        h.contentRange = none) ∧
    (∀ s e, rp = some (.ok s e) → ∃ h, directServeHeaders file rp d = .headers h ∧
        h.status = 206 ∧ h.rangeStart = s ∧ h.rangeEnd = e ∧
        h.contentRange = some (s, e, file.fileSize)) ∧
    (∀ h, directServeHeaders file rp d = .headers h →
        h.acceptRanges = true ∧
        h.contentLength = h.rangeEnd - h.rangeStart + 1 ∧
        h.contentType = (if file.mimeType = "" then "application/octet-stream" else file.mimeType) ∧
        ((h.disposition = "attachment") ↔ d = "true") ∧
        (d ≠ "true" → h.disposition = "inline")) := by
  refine ⟨?_, ?_, ?_⟩
  · intro hr
    subst hr
    exact ⟨_, rfl, rfl, rfl, rfl, rfl⟩
  · intro s e hr
    subst hr
    exact ⟨_, rfl, rfl, rfl, rfl, rfl⟩
  · intro h hh
    match rp, hh with
    | none, hh =>
      cases hh
      refine ⟨rfl, rfl, rfl, ?_, ?_⟩ <;> by_cases hd : d = "true" <;> simp [hd]
    | some (.ok s e), hh =>
      cases hh
      refine ⟨rfl, rfl, rfl, ?_, ?_⟩ <;> by_cases hd : d = "true" <;> simp [hd]

/-- C2 witness: the range semantics evaluated on a 5,000,000-byte file with
no `Range` header and no `d` parameter. -/
theorem directServe_range_semantics_witness :
    (0 : Int) < 5000000 ∧
    ((none = (none : Option RangeParse) → ∃ h,
        directServeHeaders ⟨5000000, "v.mp4", "", 42, 0⟩ none "" = .headers h ∧
        h.status = 200 ∧ h.rangeStart = 0 ∧ h.rangeEnd = 5000000 - 1 ∧
        h.contentRange = none) ∧
     (∀ s e, (none : Option RangeParse) = some (.ok s e) → ∃ h,
        directServeHeaders ⟨5000000, "v.mp4", "", 42, 0⟩ none "" = .headers h ∧
        h.status = 206 ∧ h.rangeStart = s ∧ h.rangeEnd = e ∧
        h.contentRange = some (s, e, 5000000)) ∧
     (∀ h, directServeHeaders ⟨5000000, "v.mp4", "", 42, 0⟩ none "" = .headers h →
        h.acceptRanges = true ∧
        h.contentLength = h.rangeEnd - h.rangeStart + 1 ∧
        h.contentType = (if "" = "" then "application/octet-stream" else "") ∧
        ((h.disposition = "attachment") ↔ "" = "true") ∧
        ("" ≠ "true" → h.disposition = "inline"))) :=
  ⟨by decide, directServe_range_semantics ⟨5000000, "v.mp4", "", 42, 0⟩ none "" (by decide)⟩

/-- C3: every exit path of the serve phase runs the deferred `EndRequest`
exactly once after the single `StartRequest` on the winning worker, so the
worker's `active_requests` after request termination equals its value before
selection, and `total_requests` grows by exactly one. -/
theorem direct_start_end_request_balance (w : Worker) (exit : ServeExit)
    (failed : Bool) (durationMs : Int) :
    (applyPoolOps w durationMs (directRequestPoolOps exit failed)).metrics.activeRequests
      = w.metrics.activeRequests ∧
    endCount (directRequestPoolOps exit failed) = 1 ∧
    (applyPoolOps w durationMs (directRequestPoolOps exit failed)).metrics.totalRequests
      = w.metrics.totalRequests + 1 := by
  cases exit <;>
    simp [directRequestPoolOps, serveBodyPoolOps, applyPoolOps, endCount,
      startRequest, endRequest, List.countP, List.countP.go]

/-- A deleted token is not found by any later lookup of the same token. -/
theorem sessionFind_erase (m : SessionMap) (token : String) :
    sessionFind (sessionErase m token) token = none := by
  induction m with
  | nil => rfl
  | cons kv rest ih =>
    by_cases hk : kv.fst = token <;>
      simp [sessionErase, sessionFind, List.filter_cons, hk]

/-- Inserting under a token makes it the binding found for that token. -/
theorem sessionFind_insert (m : SessionMap) (token : String) (s : Session) :
    sessionFind (sessionInsert m token s) token = some s := by
  simp [sessionInsert, sessionFind, List.find?_cons]

/-- C7: a created session validates before its expiry to exactly the stored
subject and email; validated after expiry it yields no session and the lazy
delete removes the entry, so a subsequent scan of the store no longer finds
the token. -/
theorem session_create_validate_roundtrip (m : SessionMap)
    (token userID email : String) (now ttl t : Int) (htok : token ≠ "") :
    (sessionCreate m token userID email now ttl).2.1 = token ∧
    (sessionCreate m token userID email now ttl).2.2 = now + ttl ∧
    (t < now + ttl →
      sessionValidate (sessionCreate m token userID email now ttl).1 token t
        = ((sessionCreate m token userID email now ttl).1,
           some ⟨userID, email, now, now + ttl⟩)) ∧
    (now + ttl < t →
      (sessionValidate (sessionCreate m token userID email now ttl).1 token t).2 = none ∧
      sessionFind (sessionValidate (sessionCreate m token userID email now ttl).1 token t).1 token
        = none) := by
  refine ⟨rfl, rfl, ?_, ?_⟩
  · intro ht
    simp [sessionCreate, sessionValidate, htok, sessionFind_insert,
      show ¬ (now + ttl < t) by omega]
  · intro ht
    simp [sessionCreate, sessionValidate, htok, sessionFind_insert,
      show now + ttl < t by omega, sessionFind_erase]

/-- C7 witness: the round trip on a concrete 8-hour session validated 100
seconds after creation. -/
theorem session_create_validate_roundtrip_witness :
    ("tok" ≠ "") ∧
    ((sessionCreate [] "tok" "uid1" "a@b.c" 0 28800).2.1 = "tok" ∧
     (sessionCreate [] "tok" "uid1" "a@b.c" 0 28800).2.2 = 0 + 28800 ∧
     ((100 : Int) < 0 + 28800 →
       sessionValidate (sessionCreate [] "tok" "uid1" "a@b.c" 0 28800).1 "tok" 100
         = ((sessionCreate [] "tok" "uid1" "a@b.c" 0 28800).1,
            some ⟨"uid1", "a@b.c", 0, 0 + 28800⟩)) ∧
     ((0 : Int) + 28800 < 100 →
       (sessionValidate (sessionCreate [] "tok" "uid1" "a@b.c" 0 28800).1 "tok" 100).2 = none ∧
       sessionFind (sessionValidate (sessionCreate [] "tok" "uid1" "a@b.c" 0 28800).1 "tok" 100).1 "tok"
         = none)) :=
  ⟨by decide, session_create_validate_roundtrip [] "tok" "uid1" "a@b.c" 0 28800 100 (by decide)⟩

/-- A deleted key is not found in the cache afterwards. -/
theorem cacheFind_delete (c : MetaCache) (key : String) :
    cacheFind (cacheDelete c key) key = none := by
  induction c with
  | nil => rfl
  | cons kv rest ih =>
    by_cases hk : kv.fst = key <;>
      simp [cacheDelete, cacheFind, List.filter_cons, hk]

/-- A lookup that matches the head of the store finds its value. -/
theorem cacheFind_cons_self (kv : String × TGFile × Int) (rest : MetaCache)
    (k2 : String) (h : kv.fst = k2) :
    cacheFind (kv :: rest) k2 = some kv.snd := by
  unfold cacheFind
  rw [List.find?_cons_of_pos _ (by simp [h])]
  rfl

/-- A lookup that misses the head of the store continues in the tail. -/
theorem cacheFind_cons_ne (kv : String × TGFile × Int) (rest : MetaCache)
    (k2 : String) (h : ¬ kv.fst = k2) :
    cacheFind (kv :: rest) k2 = cacheFind rest k2 := by
  unfold cacheFind
  rw [List.find?_cons_of_neg _ (by simp [h])]

/-- Deleting one key leaves every other key's binding unchanged. -/
theorem cacheFind_delete_other (c : MetaCache) (key k2 : String) (hne : k2 ≠ key) :
    cacheFind (cacheDelete c key) k2 = cacheFind c k2 := by
  induction c with
  | nil => rfl
  | cons kv rest ih =>
    by_cases hk : kv.fst = key
    · have hkv2 : ¬ kv.fst = k2 := by rw [hk]; exact fun h => hne h.symm
      have h1 : cacheDelete (kv :: rest) key = cacheDelete rest key := by
        simp [cacheDelete, List.filter_cons, hk]
      rw [h1, ih, cacheFind_cons_ne kv rest k2 hkv2]
    · have h1 : cacheDelete (kv :: rest) key = kv :: cacheDelete rest key := by
        simp [cacheDelete, List.filter_cons, hk]
      rw [h1]
      by_cases h2 : kv.fst = k2
      · rw [cacheFind_cons_self kv _ k2 h2, cacheFind_cons_self kv rest k2 h2]
      · rw [cacheFind_cons_ne kv _ k2 h2, cacheFind_cons_ne kv rest k2 h2, ih]

/-- A stored key is found with the descriptor and TTL it was stored with. -/
theorem cacheFind_set (c : MetaCache) (key : String) (f : TGFile) (ttl : Int) :
    cacheFind (cacheSet c key f ttl) key = some (f, ttl) := by
  simp [cacheSet, cacheFind, List.find?_cons]

/-- C8: a direct-stream descriptor fetched on a cache miss is cached under
`direct:<channel_id>:<message_id>:<worker_account_id>` with TTL 240 seconds,
and the reference-expired refetch path deletes exactly that key (leaving all
other keys intact) before fetching fresh metadata upstream — so it returns
the fresh descriptor even when a stale entry was cached — and re-caches the
result under the same key with TTL 240. -/
theorem direct_cache_key_ttl_refetch (c : MetaCache) (channelID messageID selfID : Int)
    (f fresh : TGFile) :
    (cacheFind c (directCacheKey channelID messageID selfID) = none →
      fileFromMessageAndChannel c channelID messageID selfID (.ok f)
        = (cacheSet c (directCacheKey channelID messageID selfID) f 240, .ok f) ∧
      cacheFind (fileFromMessageAndChannel c channelID messageID selfID (.ok f)).1
          (directCacheKey channelID messageID selfID) = some (f, 240)) ∧
    (∀ k2, k2 ≠ directCacheKey channelID messageID selfID →
      cacheFind (cacheDelete c (directCacheKey channelID messageID selfID)) k2
        = cacheFind c k2) ∧
    (refetchFileFromMessageAndChannel c channelID messageID selfID (.ok fresh)).2
      = .ok fresh ∧
    cacheFind (refetchFileFromMessageAndChannel c channelID messageID selfID (.ok fresh)).1
        (directCacheKey channelID messageID selfID) = some (fresh, 240) := by
  have hdel := cacheFind_delete c (directCacheKey channelID messageID selfID)
  refine ⟨?_, ?_, ?_, ?_⟩
  · intro hmiss
    constructor
    · simp [fileFromMessageAndChannel, hmiss]
    · simp [fileFromMessageAndChannel, hmiss, cacheFind_set]
  · intro k2 hk2
    exact cacheFind_delete_other c _ k2 hk2
  · simp [refetchFileFromMessageAndChannel, fileFromMessageAndChannel, hdel]
  · simp [refetchFileFromMessageAndChannel, fileFromMessageAndChannel, hdel, cacheFind_set]

/-- C8 witness: the caching and refetch contract evaluated on an empty cache
for channel 900, message 42, worker account 7. -/
theorem direct_cache_key_ttl_refetch_witness :
    cacheFind [] (directCacheKey 900 42 7) = none ∧
    (fileFromMessageAndChannel [] 900 42 7 (.ok ⟨5000000, "v.mp4", "video/mp4", 1, 0⟩)
        = (cacheSet [] (directCacheKey 900 42 7) ⟨5000000, "v.mp4", "video/mp4", 1, 0⟩ 240,
           .ok ⟨5000000, "v.mp4", "video/mp4", 1, 0⟩) ∧
     cacheFind (fileFromMessageAndChannel [] 900 42 7
          (.ok ⟨5000000, "v.mp4", "video/mp4", 1, 0⟩)).1 (directCacheKey 900 42 7)
        = some (⟨5000000, "v.mp4", "video/mp4", 1, 0⟩, 240)) :=
  ⟨rfl, (direct_cache_key_ttl_refetch [] 900 42 7
    ⟨5000000, "v.mp4", "video/mp4", 1, 0⟩ ⟨5000000, "v.mp4", "video/mp4", 1, 0⟩).1 rfl⟩

/-- C1: the direct route performs no session-token check at all — its
request-validation phase reads only the media-channel configuration, the
message-id path parameter, and the legacy `sig`/`exp` HMAC query parameters.
Evaluated at the failing input (a valid message id, no token anywhere, no
`STREAM_SECRET` configured), the request proceeds to worker selection and
streaming instead of being rejected with 401, contradicting the repository's
own authentication documentation. -/
theorem direct_route_no_session_auth :
    directEarlyPhase (fun _ _ => "") (-1001234567890) "" "1" "" "" 1700000000
      = .proceed 1 ∧
    EarlyOutcome.proceed 1 ≠ EarlyOutcome.unauthorized401 := by
  exact ⟨by decide, by decide⟩

/-- C5 counterexample: a message id of `0` parses successfully and is not
rejected — the request-validation phase proceeds to worker selection and
the upstream fetch rather than returning 400. -/
theorem direct_zero_id_not_rejected :
    directEarlyPhase (fun _ _ => "") (-1001234567890) "" "0" "" "" 1700000000
      = .proceed 0 ∧
    EarlyOutcome.proceed 0 ≠ EarlyOutcome.badRequest400 := by
  exact ⟨by decide, by decide⟩

/-- C5 (amended): the handler responds 400 before any upstream call exactly
when the message-id path parameter fails `strconv.Atoi`; a parameter that
parses — including to zero or a negative integer — is not rejected and
proceeds to worker selection and the upstream fetch. -/
theorem direct_messageid_parse_gate (computeHMAC : String → String → String)
    (mediaChannelID : Int) (streamSecret messageIDParam sigParam expParam : String)
    (now : Int) (hch : mediaChannelID ≠ 0) :
    (goAtoi messageIDParam = none →
      directEarlyPhase computeHMAC mediaChannelID streamSecret
        messageIDParam sigParam expParam now = .badRequest400) ∧
    (∀ n, goAtoi messageIDParam = some n →
      directEarlyPhase computeHMAC mediaChannelID ""
        messageIDParam sigParam expParam now = .proceed n) := by
  constructor
  · intro hparse
    simp [directEarlyPhase, hch, hparse]
  · intro n hparse
    simp [directEarlyPhase, hch, hparse]

/-- C5 amended witness: the parse gate evaluated on the non-numeric
parameter `"abc"` with channel `-1001234567890` configured. -/
theorem direct_messageid_parse_gate_witness :
    ((-1001234567890 : Int) ≠ 0) ∧ goAtoi "abc" = none ∧
    directEarlyPhase (fun _ _ => "") (-1001234567890) "" "abc" "" "" 1700000000
      = .badRequest400 :=
  ⟨by decide, by decide,
   (direct_messageid_parse_gate (fun _ _ => "") (-1001234567890) "" "abc" "" ""
      1700000000 (by decide)).1 (by decide)⟩

/-- C6 counterexample: a token whose `exp` equals the verification time
`now` is accepted (`VerifyToken` rejects only when `now > exp`), yet
`exp > now` fails — so claims are returned without `exp > now` holding. -/
theorem verifyToken_accepts_exp_equal_now :
    verifyPayload
        ⟨some 1000, some 1000, some "p", some "https://securetoken.google.com/p",
         some "u", none, none⟩ 1000 "p"
      = .ok ⟨"u", "", false⟩ ∧
    ¬ ((1000 : Int) > 1000) := by
  exact ⟨by rfl, by decide⟩

/-- C6 (amended): for a well-formed, signature-verified token the payload
check returns claims exactly when `aud` equals the project id, `iss` equals
the issuer prefix joined with the project id, `exp ≥ now` (expiry is
inclusive: the code rejects only `now > exp`), `iat ≤ now + 300`, and the
subject length is between 1 and 128; each failing condition yields its own
distinct error. -/
theorem verifyPayload_acceptance (p : FirebasePayload) (now : Int)
    (projectID : String) (hpid : projectID ≠ "") :
    ((verifyPayload p now projectID).isOk ↔
      (∃ e, p.exp = some e ∧ now ≤ e) ∧
      (∃ i, p.iat = some i ∧ i ≤ now + 300) ∧
      p.aud = some projectID ∧
      p.iss = some ("https://securetoken.google.com/" ++ projectID) ∧
      (∃ s, p.sub = some s ∧ 1 ≤ s.length ∧ s.length ≤ 128)) ∧
    (∀ e i, p.exp = some e → p.iat = some i → e < now →
      verifyPayload p now projectID = .error "token expired") ∧
    (∀ e i, p.exp = some e → p.iat = some i → now ≤ e → now + 300 < i →
      verifyPayload p now projectID = .error "token issued in the future") ∧
    (∀ e i a, p.exp = some e → p.iat = some i → now ≤ e → i ≤ now + 300 →
      p.aud = some a → a ≠ "" → a ≠ projectID →
      verifyPayload p now projectID = .error "invalid audience") ∧
    (∀ e i s, p.exp = some e → p.iat = some i → now ≤ e → i ≤ now + 300 →
      p.aud = some projectID →
      p.iss = some ("https://securetoken.google.com/" ++ projectID) →
      p.sub = some s → s ≠ "" → 128 < s.length →
      verifyPayload p now projectID = .error "invalid subject") := by
  obtain ⟨pexp, piat, paud, piss, psub, pem, pev⟩ := p
  have hissne : ("https://securetoken.google.com/" ++ projectID) ≠ "" := by
    intro h
    have h2 : ("https://securetoken.google.com/" ++ projectID).length = (0 : Nat) := by
      rw [h]
      rfl
    rw [String.length_append] at h2
    have h3 : ("https://securetoken.google.com/").length = 31 := by rfl
    rw [h3] at h2
    omega
  refine ⟨?_, ?_, ?_, ?_, ?_⟩
  · constructor
    · intro hok
      cases pexp with
      | none => simp [verifyPayload, int64Claim, Except.isOk, Except.toBool] at hok
      | some e =>
        cases piat with
        | none => simp [verifyPayload, int64Claim, Except.isOk, Except.toBool] at hok
        | some i =>
          by_cases hexp : now > e
          · simp [verifyPayload, int64Claim, Except.isOk, Except.toBool, hexp] at hok
          · by_cases hiat : i > now + 300
            · simp [verifyPayload, int64Claim, Except.isOk, Except.toBool, hexp, hiat] at hok
            · cases paud with
              | none => simp [verifyPayload, int64Claim, stringClaim, Except.isOk, Except.toBool, hpid, hissne, hexp, hiat] at hok
              | some a =>
                by_cases ha0 : a = ""
                · simp [verifyPayload, int64Claim, stringClaim, Except.isOk, Except.toBool, hpid, hissne, hexp, hiat, ha0] at hok
                · by_cases ha : a = projectID
                  · cases piss with
                    | none =>
                      simp [verifyPayload, int64Claim, stringClaim, Except.isOk, Except.toBool, hpid, hissne, hexp, hiat, ha0, ha] at hok
                    | some iss =>
                      by_cases hi0 : iss = ""
                      · simp [verifyPayload, int64Claim, stringClaim, Except.isOk, Except.toBool, hpid, hissne, hexp, hiat,
                          ha0, ha, hi0] at hok
                      · by_cases hi : iss = "https://securetoken.google.com/" ++ projectID
                        · cases psub with
                          | none =>
                            simp [verifyPayload, int64Claim, stringClaim, Except.isOk, Except.toBool, hpid, hissne, hexp, hiat,
                              ha0, ha, hi0, hi] at hok
                          | some s =>
                            by_cases hs0 : s = ""
                            · simp [verifyPayload, int64Claim, stringClaim, Except.isOk, Except.toBool, hpid, hissne, hexp, hiat,
                                ha0, ha, hi0, hi, hs0] at hok
                            · by_cases hslen : s.length = 0 ∨ s.length > 128
                              · simp [verifyPayload, int64Claim, stringClaim, Except.isOk, Except.toBool, hpid, hissne, hexp, hiat,
                                  ha0, ha, hi0, hi, hs0, hslen] at hok
                              · push_neg at hslen
                                refine ⟨⟨e, rfl, by omega⟩, ⟨i, rfl, by omega⟩,
                                  by simp [ha], by simp [hi], ⟨s, rfl, by omega, by omega⟩⟩
                        · simp [verifyPayload, int64Claim, stringClaim, Except.isOk, Except.toBool, hpid, hissne, hexp, hiat,
                            ha0, ha, hi0, hi] at hok
                  · simp [verifyPayload, int64Claim, stringClaim, Except.isOk, Except.toBool, hpid, hissne, hexp, hiat, ha0, ha] at hok
    · rintro ⟨⟨e, he, hee⟩, ⟨i, hi, hii⟩, haud, hiss, ⟨s, hsub, hs1, hs2⟩⟩
      subst he; subst hi; subst haud; subst hiss; subst hsub
      have hs0 : ¬ s = "" := by
        intro h
        rw [h] at hs1
        simp at hs1
      simp [verifyPayload, int64Claim, stringClaim, Except.isOk, Except.toBool,
        show ¬ now > e by omega, show ¬ i > now + 300 by omega, hpid, hissne, hs0,
        show ¬ (s.length = 0 ∨ s.length > 128) by omega]
  · intro e i he hi hlt
    subst he; subst hi
    simp [verifyPayload, int64Claim, show now > e by omega]
  · intro e i he hi hexp hiat
    subst he; subst hi
    simp [verifyPayload, int64Claim, show ¬ now > e by omega, show i > now + 300 by omega]
  · intro e i a he hi hexp hiat ha ha0 hane
    subst he; subst hi; subst ha
    simp [verifyPayload, int64Claim, stringClaim, show ¬ now > e by omega,
      show ¬ i > now + 300 by omega, ha0, hane]
  · intro e i s he hi hexp hiat ha hiss hsub hs0 hslen
    subst he; subst hi; subst ha; subst hiss; subst hsub
    simp [verifyPayload, int64Claim, stringClaim, show ¬ now > e by omega,
      show ¬ i > now + 300 by omega, hpid, hissne, hs0,
      show s.length = 0 ∨ s.length > 128 by omega]

/-- C6 amended witness: the acceptance characterization evaluated at project
id `"p"` on a payload that passes every check with `exp = now + 600`. -/
theorem verifyPayload_acceptance_witness :
    ("p" ≠ "") ∧
    ((verifyPayload
        ⟨some 1600, some 900, some "p", some "https://securetoken.google.com/p",
         some "u", none, none⟩ 1000 "p").isOk ↔
      (∃ e, (some (1600 : Int)) = some e ∧ (1000 : Int) ≤ e) ∧
      (∃ i, (some (900 : Int)) = some i ∧ i ≤ 1000 + 300) ∧
      (some "p") = some "p" ∧
      (some "https://securetoken.google.com/p")
        = some ("https://securetoken.google.com/" ++ "p") ∧
      (∃ s, (some "u") = some s ∧ 1 ≤ s.length ∧ s.length ≤ 128)) :=
  ⟨by decide,
   (verifyPayload_acceptance
      ⟨some 1600, some 900, some "p", some "https://securetoken.google.com/p",
       some "u", none, none⟩ 1000 "p" (by decide)).1⟩

/-- A selection scan in which every worker is excluded never updates the
running best and returns it unchanged. -/
theorem selectExAux_excluded_const (excludeIDs : List Int) :
    ∀ (l : List Worker) (m : Int) (best : Option Worker),
    (∀ w ∈ l, excludeIDs.contains w.id) →
    selectExAux excludeIDs l m best = best := by
  intro l
  induction l with
  | nil => intro m best _; rfl
  | cons w ws ih =>
    intro m best h
    have hw := h w (List.mem_cons_self w ws)
    simp only [selectExAux, hw, if_true]
    exact ih m best (fun x hx => h x (List.mem_cons_of_mem w hx))

/-- C9 counterexample: with one worker whose fetches fail transiently, the
retry chain exhausts every worker and the handler responds 502 (bad
gateway), not 503. -/
theorem retry_exhaustion_returns_502 :
    handlerFetchPhase [⟨1, ⟨0, 0, 0, 0⟩⟩] (fun _ => .error .transient)
        (.error .transient) = .respond 502 ∧
    FetchPhase.respond 502 ≠ FetchPhase.respond 503 := by
  exact ⟨by decide, by decide⟩

/-- C9 (amended): `GetNextWorkerExcluding` with every pool worker's id
excluded returns the `nil` sentinel; the handler responds 503 when the pool
is empty at the initial selection, while exhaustion of the worker retry
chain mid-request is classified as an upstream failure and answered with
502. -/
theorem worker_exhaustion_behavior :
    (∀ (pool : List Worker) (excludeIDs : List Int),
      (∀ w ∈ pool, excludeIDs.contains w.id) →
      getNextWorkerExcluding pool excludeIDs = none) ∧
    (∀ (fetchOf : Int → Except FetchErr TGFile)
       (raceOracle : Except FetchErr (TGFile × Worker)),
      handlerFetchPhase [] fetchOf raceOracle = .respond 503) ∧
    (∀ (w : Worker) (fetchOf : Int → Except FetchErr TGFile)
       (raceOracle : Except FetchErr (TGFile × Worker)),
      score w < 999999999 → fetchOf w.id = .error .transient →
      handlerFetchPhase [w] fetchOf raceOracle = .respond 502) := by
  refine ⟨?_, ?_, ?_⟩
  · intro pool excludeIDs h
    exact selectExAux_excluded_const excludeIDs pool 999999999 none h
  · intro fetchOf raceOracle
    rfl
  · intro w fetchOf raceOracle hscore hfetch
    have h1 : getNextWorkerIdx [w] = some 0 := by
      simp [getNextWorkerIdx, selectAux, hscore]
    have h2 : getNextWorker [w] = some w := by
      simp [getNextWorker, h1, List.getD]
    have h3 : getNextWorkerExcluding [w] [w.id] = none := by
      simp [getNextWorkerExcluding, selectExAux]
    simp [handlerFetchPhase, h2, h3, fetchFileWithRace, fetchFileWithRetry,
      hfetch, isHardErr, fetchRetryLoop]

/-- C9 amended witness: the exhaustion behavior evaluated on a pool of one
excluded worker, the empty pool, and a single transiently failing worker. -/
theorem worker_exhaustion_behavior_witness :
    getNextWorkerExcluding [⟨1, ⟨0, 0, 0, 0⟩⟩] [1] = none ∧
    handlerFetchPhase [] (fun _ => .error .transient) (.error .transient)
      = .respond 503 ∧
    handlerFetchPhase [⟨2, ⟨0, 0, 0, 0⟩⟩] (fun _ => .error .transient)
        (.error .transient) = .respond 502 :=
  ⟨worker_exhaustion_behavior.1 [⟨1, ⟨0, 0, 0, 0⟩⟩] [1] (by decide),
   worker_exhaustion_behavior.2.1 (fun _ => .error .transient) (.error .transient),
   worker_exhaustion_behavior.2.2 ⟨2, ⟨0, 0, 0, 0⟩⟩ (fun _ => .error .transient)
     (.error .transient) (by decide) rfl⟩

/-- A selection scan over workers that all score at least the running
minimum leaves the running best unchanged. -/
theorem selectAux_skip (l : List Worker) :
    ∀ (m : Int) (best : Option Nat) (i : Nat),
    (∀ w ∈ l, m ≤ score w) → selectAux l m best i = best := by
  induction l with
  | nil => intro m best i _; rfl
  | cons w ws ih =>
    intro m best i h
    have hw := h w (List.mem_cons_self w ws)
    simp only [selectAux]
    rw [if_neg (by omega : ¬ score w < m)]
    exact ih m best (i + 1) (fun x hx => h x (List.mem_cons_of_mem w hx))

/-- When a worker strictly beats the running minimum, every earlier worker,
and ties-or-worse follow it, the scan selects exactly its position. -/
theorem selectAux_locates (A : List Worker) :
    ∀ (b : Worker) (B : List Worker) (m : Int) (best : Option Nat) (i : Nat),
    score b < m → (∀ a ∈ A, score b < score a) → (∀ x ∈ B, score b ≤ score x) →
    selectAux (A ++ b :: B) m best i = some (i + A.length) := by
  induction A with
  | nil =>
    intro b B m best i hm hA hB
    simp only [List.nil_append, selectAux]
    rw [if_pos hm, selectAux_skip B (score b) (some i) (i + 1) hB]
    simp
  | cons a A2 ih =>
    intro b B m best i hm hA hB
    have ha := hA a (List.mem_cons_self a A2)
    have hA2 : ∀ x ∈ A2, score b < score x :=
      fun x hx => hA x (List.mem_cons_of_mem a hx)
    simp only [List.cons_append, selectAux, List.append_eq]
    by_cases hc : score a < m
    · rw [if_pos hc, ih b B (score a) (some i) (i + 1) ha hA2 hB]
      congr 1
      simp [List.length_cons]
      omega
    · rw [if_neg hc, ih b B m best (i + 1) hm hA2 hB]
      congr 1
      simp [List.length_cons]
      omega

/-- When some worker scores below the running minimum, the scan returns the
position of a worker of globally minimal score. -/
theorem selectAux_min (l : List Worker) :
    ∀ (m : Int) (best : Option Nat) (i : Nat),
    (∃ w ∈ l, score w < m) →
    ∃ j, j < l.length ∧ selectAux l m best i = some (i + j) ∧
      score (l.getD j default) < m ∧ ∀ w ∈ l, score (l.getD j default) ≤ score w := by
  induction l with
  | nil =>
    intro m best i h
    obtain ⟨w, hw, _⟩ := h
    exact absurd hw (List.not_mem_nil w)
  | cons w ws ih =>
    intro m best i hex
    by_cases hw : score w < m
    · by_cases hws : ∃ x ∈ ws, score x < score w
      · obtain ⟨j, hj, heq, hjm, hmin⟩ := ih (score w) (some i) (i + 1) hws
        refine ⟨j + 1, by simpa using Nat.succ_lt_succ hj, ?_, ?_, ?_⟩
        · simp only [selectAux]
          rw [if_pos hw, heq]
          congr 1
          omega
        · simpa [List.getD_cons_succ] using lt_trans hjm hw
        · intro x hx
          rcases List.mem_cons.mp hx with h1 | h1
          · rw [h1]
            simpa [List.getD_cons_succ] using le_of_lt hjm
          · simpa [List.getD_cons_succ] using hmin x h1
      · push_neg at hws
        refine ⟨0, Nat.succ_pos _, ?_,
          by simpa [List.getD_cons_zero] using hw, ?_⟩
        · simp only [selectAux]
          rw [if_pos hw, selectAux_skip ws (score w) (some i) (i + 1) hws]
          simp
        · intro x hx
          rcases List.mem_cons.mp hx with h1 | h1
          · rw [h1]
            simp [List.getD_cons_zero]
          · simp only [List.getD_cons_zero]
            exact hws x h1
    · have hex2 : ∃ x ∈ ws, score x < m := by
        obtain ⟨x, hx, hxm⟩ := hex
        rcases List.mem_cons.mp hx with h1 | h1
        · exact absurd (h1 ▸ hxm) hw
        · exact ⟨x, h1, hxm⟩
      obtain ⟨j, hj, heq, hjm, hmin⟩ := ih m best (i + 1) hex2
      refine ⟨j + 1, by simpa using Nat.succ_lt_succ hj, ?_, ?_, ?_⟩
      · simp only [selectAux]
        rw [if_neg hw, heq]
        congr 1
        omega
      · simpa [List.getD_cons_succ] using hjm
      · intro x hx
        rcases List.mem_cons.mp hx with h1 | h1
        · rw [h1]
          have : score (ws.getD j default) ≤ score w := by omega
          simpa [List.getD_cons_succ] using this
        · simpa [List.getD_cons_succ] using hmin x h1

theorem score_freshWorker (i : Nat) (c : Int) : score (freshWorker i c) = c := by
  simp [score, freshWorker]

theorem score_startedWorker (i : Nat) (c : Int) :
    score (startedWorker i c) = c + 10001 := by
  simp [score, startedWorker]
  omega

/-- The rotation pool splits into the already-started prefix, the next fresh
worker, and the remaining fresh workers. -/
theorem stateNk_decomp (N : Nat) (c : Int) (k : Nat) (h : k < N) :
    stateNk N c k
      = ((List.range k).map (fun i => startedWorker i c)) ++
        (freshWorker k c) ::
          ((List.range' (k + 1) (N - (k + 1))).map (fun i => freshWorker i c)) := by
  unfold stateNk
  have hsplit : List.range N = List.range' 0 k ++ List.range' (0 + k) (N - k) := by
    rw [List.range'_append_1, List.range_eq_range']
    congr 1
    omega
  rw [hsplit, List.map_append]
  congr 1
  · rw [Nat.zero_add] at *
    rw [← List.range_eq_range']
    apply List.map_congr_left
    intro x hx
    simp [List.mem_range.mp hx]
  · rw [Nat.zero_add, show N - k = (N - (k + 1)) + 1 by omega, List.range'_succ]
    simp only [List.map_cons]
    congr 1
    · simp
    · apply List.map_congr_left
      intro x hx
      have hxx := (List.mem_range'_1.mp hx).1
      simp [show ¬ x < k by omega]

/-- In the rotation pool, the scan selects the first never-started worker. -/
theorem getNextWorkerIdx_stateNk (N : Nat) (c : Int) (k : Nat)
    (hk : k < N) (hc : c < 999999999) :
    getNextWorkerIdx (stateNk N c k) = some k := by
  rw [getNextWorkerIdx, stateNk_decomp N c k hk]
  rw [selectAux_locates _ _ _ _ _ _ (by rw [score_freshWorker]; exact hc)
    (by
      intro a ha
      obtain ⟨x, hx, rfl⟩ := List.mem_map.mp ha
      rw [score_freshWorker, score_startedWorker]
      omega)
    (by
      intro x hx
      obtain ⟨y, hy, rfl⟩ := List.mem_map.mp hx
      rw [score_freshWorker, score_freshWorker])]
  simp

/-- Element access of the rotation pool. -/
theorem stateNk_getD (N : Nat) (c : Int) (k n : Nat) (h : n < N) :
    (stateNk N c k).getD n default
      = if n < k then startedWorker n c else freshWorker n c := by
  have hlen : n < (stateNk N c k).length := by
    simpa [stateNk] using h
  rw [List.getD_eq_getElem?_getD, List.getElem?_eq_getElem hlen]
  simp [stateNk]

/-- Starting the `k`-th worker of the rotation pool advances the already-
started prefix by one. -/
theorem startAt_stateNk (N : Nat) (c : Int) (k : Nat) (hk : k < N) :
    startAt (stateNk N c k) k = stateNk N c (k + 1) := by
  have hv : startRequest ((stateNk N c k).getD k default) = startedWorker k c := by
    rw [stateNk_getD N c k k hk]
    simp [startRequest, startedWorker, freshWorker]
  unfold startAt
  rw [hv]
  apply List.ext_getElem
  · simp [stateNk]
  · intro n h1 h2
    have hn : n < N := by simpa [stateNk] using h2
    rw [List.getElem_set]
    by_cases hkn : k = n
    · subst hkn
      simp [stateNk]
    · rw [if_neg hkn]
      by_cases hnk : n < k
      · simp [stateNk, hnk, show n < k + 1 by omega]
      · simp [stateNk, hnk, show ¬ n < k + 1 by omega]

/-- Starting from the fresh rotation pool of `N` workers, each round selects
the next index in order. -/
theorem simulate_stateNk (c : Int) (hc : c < 999999999) :
    ∀ (m k N : Nat), k + m = N → simulate m (stateNk N c k) = List.range' k m := by
  intro m
  induction m with
  | zero => intro k N _; simp [simulate]
  | succ t ih =>
    intro k N hkm
    have hk : k < N := by omega
    have h1 := getNextWorkerIdx_stateNk N c k hk hc
    simp only [simulate, h1]
    rw [startAt_stateNk N c k hk, ih (k + 1) N (by omega), List.range'_succ]

/-- C4 counterexample: two workers both with `active_requests = 0` but
unequal totals (0 and 20000).  Two rounds of selection and `StartRequest`
pick worker index 0 twice — the first worker's post-start score 10001 still
beats the second worker's 20000 — so not all workers are visited before a
revisit. -/
theorem lb_rotation_fails_with_unequal_totals :
    (∀ w ∈ ([⟨1, ⟨0, 0, 0, 0⟩⟩, ⟨2, ⟨0, 20000, 0, 0⟩⟩] : List Worker),
      w.metrics.activeRequests = 0) ∧
    simulate 2 [⟨1, ⟨0, 0, 0, 0⟩⟩, ⟨2, ⟨0, 20000, 0, 0⟩⟩] = [0, 0] ∧
    ¬ (simulate 2 [⟨1, ⟨0, 0, 0, 0⟩⟩, ⟨2, ⟨0, 20000, 0, 0⟩⟩]).Nodup := by
  exact ⟨by decide, by decide, by decide⟩

/-- C4 (amended): whenever some worker scores below the sentinel
`999999999`, `GetNextWorker` returns a worker of minimal score
`active_requests * 10000 + total_requests`; and starting from `N` workers
with `active_requests = 0` and **equal** totals `c < 999999999`, `N` rounds
of selection followed by `StartRequest` select the `N` distinct workers in
order, none twice. -/
theorem lb_minimal_score_selection_and_rotation :
    (∀ pool : List Worker, (∃ w ∈ pool, score w < 999999999) →
      ∃ i, i < pool.length ∧ getNextWorkerIdx pool = some i ∧
        getNextWorker pool = some (pool.getD i default) ∧
        ∀ w ∈ pool, score (pool.getD i default) ≤ score w) ∧
    (∀ (N : Nat) (c : Int), c < 999999999 →
      simulate N (stateNk N c 0) = List.range N ∧ (List.range N).Nodup) := by
  constructor
  · intro pool hex
    obtain ⟨j, hj, heq, _, hmin⟩ := selectAux_min pool 999999999 none 0 hex
    have hidx : getNextWorkerIdx pool = some j := by
      rw [getNextWorkerIdx, heq]
      simp
    refine ⟨j, hj, hidx, ?_, hmin⟩
    rw [getNextWorker, hidx]
    rfl
  · intro N c hc
    refine ⟨?_, List.nodup_range N⟩
    rw [simulate_stateNk c hc N 0 N (by omega), ← List.range_eq_range']

/-- C4 amended witness: minimal-score selection on a singleton pool and the
full rotation for `N = 3`, `c = 0`. -/
theorem lb_minimal_selection_witness :
    (∃ w ∈ ([⟨1, ⟨0, 0, 0, 0⟩⟩] : List Worker), score w < 999999999) ∧
    (∃ i, i < ([⟨1, ⟨0, 0, 0, 0⟩⟩] : List Worker).length ∧
      getNextWorkerIdx [⟨1, ⟨0, 0, 0, 0⟩⟩] = some i ∧
      getNextWorker [⟨1, ⟨0, 0, 0, 0⟩⟩]
        = some (([⟨1, ⟨0, 0, 0, 0⟩⟩] : List Worker).getD i default) ∧
      ∀ w ∈ ([⟨1, ⟨0, 0, 0, 0⟩⟩] : List Worker),
        score (([⟨1, ⟨0, 0, 0, 0⟩⟩] : List Worker).getD i default) ≤ score w) ∧
    (simulate 3 (stateNk 3 0 0) = List.range 3 ∧ (List.range 3).Nodup) :=
  ⟨by decide,
   lb_minimal_score_selection_and_rotation.1 [⟨1, ⟨0, 0, 0, 0⟩⟩] (by decide),
   lb_minimal_score_selection_and_rotation.2 3 0 (by decide)⟩

end FSB
